import Mathlib

/-!
Verification of the piecewise Bezier curve engine of the temp-flow-curves
repository: the basis formulas, path tessellator and time-based value
sampler of src/lib/bezier.ts, together with the variant curve code kept in
src/lib/controllerService.ts (suffix CS below).  JavaScript numbers are
modelled as exact rationals; optional fields as Option; the string tag
stored in a control point's type field as Option String.  A Checked
variant of each evaluator additionally reports (as none) the places where
the JavaScript code would divide by zero and produce NaN.
-/

/-- A 2D point in normalized (time, value) space, the `{ x, y }` records of
the TypeScript code. -/
@[ext] structure Pt where
  x : ℚ
  y : ℚ
  deriving DecidableEq

/-- The ControlPoint record of src/lib/types.ts: position, optional handle
coordinates and optional interpolation tag. -/
structure ControlPoint where
  x : ℚ
  y : ℚ
  handleX : Option ℚ := none
  handleY : Option ℚ := none
  type : Option String := none
  deriving DecidableEq

instance : Inhabited ControlPoint := ⟨⟨0, 0, none, none, none⟩⟩

/-- cubicBezier of src/lib/bezier.ts (expanded-coefficient cubic form). -/
def cubicBezier (p0 p1 p2 p3 : Pt) (t : ℚ) : Pt :=
  let cx := 3 * (p1.x - p0.x)
  let bx := 3 * (p2.x - p1.x) - cx
  let ax := p3.x - p0.x - cx - bx
  let cy := 3 * (p1.y - p0.y)
  let bYc := 3 * (p2.y - p1.y) - cy
  let ay := p3.y - p0.y - cy - bYc
  let tSquared := t * t
  let tCubed := tSquared * t
  ⟨ax * tCubed + bx * tSquared + cx * t + p0.x,
   ay * tCubed + bYc * tSquared + cy * t + p0.y⟩

/-- quadraticBezier of src/lib/bezier.ts (Bernstein form). -/
def quadraticBezier (p0 p1 p2 : Pt) (t : ℚ) : Pt :=
  let oneMinusT := 1 - t
  let oneMinusTSquared := oneMinusT * oneMinusT
  let tSquared := t * t
  ⟨oneMinusTSquared * p0.x + 2 * oneMinusT * t * p1.x + tSquared * p2.x,
   oneMinusTSquared * p0.y + 2 * oneMinusT * t * p1.y + tSquared * p2.y⟩

/-- linearBezier of src/lib/bezier.ts. -/
def linearBezier (p0 p1 : Pt) (t : ℚ) : Pt :=
  ⟨p0.x + t * (p1.x - p0.x), p0.y + t * (p1.y - p0.y)⟩

/-- quadraticBezier of src/lib/controllerService.ts (expanded-coefficient
form: c = 2(h-p0), b = p1 - p0 - c, result = b t^2 + c t + p0). -/
def quadraticBezierCS (p0 p1 p2 : Pt) (t : ℚ) : Pt :=
  let cx := 2 * (p1.x - p0.x)
  let bx := p2.x - p0.x - cx
  let cy := 2 * (p1.y - p0.y)
  let bYc := p2.y - p0.y - cy
  let tSquared := t * t
  ⟨bx * tSquared + cx * t + p0.x, bYc * tSquared + cy * t + p0.y⟩

/-- Modelled from the spec: the quadratic Bezier formula as the spec words
it, point(t) = (1-t)^2 p0 + 2(1-t)t h + t^2 p1. -/
def quadraticSpec (p0 h p1 : Pt) (t : ℚ) : Pt :=
  ⟨(1 - t) ^ 2 * p0.x + 2 * (1 - t) * t * h.x + t ^ 2 * p1.x,
   (1 - t) ^ 2 * p0.y + 2 * (1 - t) * t * h.y + t ^ 2 * p1.y⟩

/-- JavaScript `tag || "linear"`: undefined and the empty string fall back
to "linear". -/
def tagOr (tag : Option String) : String :=
  match tag with
  | none => "linear"
  | some s => if s = "" then "linear" else s

/-- JavaScript truthiness of an optional number: defined and nonzero. -/
def truthyNum (o : Option ℚ) : Bool :=
  match o with
  | some v => v != 0
  | none => false

/-- JavaScript `o || d` on an optional number: the value when defined and
nonzero, otherwise the default. -/
def orNum (o : Option ℚ) (d : ℚ) : ℚ :=
  match o with
  | some v => if v = 0 then d else v
  | none => d

/-- The per-segment basis dispatch of src/lib/bezier.ts (shared by the
branch bodies of getBezierPath, lines 76-147, and of getTemperatureAtTime,
lines 185-233): linear, quadratic with half-way default handle, otherwise
cubic with one-third default handles. -/
def segPointAt (startPoint endPoint : ControlPoint) (ty : String) (t : ℚ) : Pt :=
  if ty = "linear" then
    linearBezier ⟨startPoint.x, startPoint.y⟩ ⟨endPoint.x, endPoint.y⟩ t
  else if ty = "quadratic" then
    let handleX := startPoint.handleX.getD (startPoint.x + (endPoint.x - startPoint.x) / 2)
    let handleY := startPoint.handleY.getD (startPoint.y + (endPoint.y - startPoint.y) / 2)
    quadraticBezier ⟨startPoint.x, startPoint.y⟩ ⟨handleX, handleY⟩
      ⟨endPoint.x, endPoint.y⟩ t
  else
    let startHandleX := startPoint.handleX.getD (startPoint.x + (endPoint.x - startPoint.x) / 3)
    let startHandleY := startPoint.handleY.getD (startPoint.y + (endPoint.y - startPoint.y) / 3)
    let endHandleX := endPoint.handleX.getD (endPoint.x - (endPoint.x - startPoint.x) / 3)
    let endHandleY := endPoint.handleY.getD (endPoint.y - (endPoint.y - startPoint.y) / 3)
    cubicBezier ⟨startPoint.x, startPoint.y⟩ ⟨startHandleX, startHandleY⟩
      ⟨endHandleX, endHandleY⟩ ⟨endPoint.x, endPoint.y⟩ t

/-- One segment of getBezierPath (src/lib/bezier.ts lines 68-148): the
basis is read from the start point; a recognized basis emits the points
t = j / segmentSteps for j in 0..segmentSteps, skipping j = 0 on every
segment after the first; an unrecognized basis matches no branch and emits
nothing. -/
def segmentPath (startPoint endPoint : ControlPoint) (steps : ℚ) (isFirst : Bool) : List Pt :=
  let ty := tagOr startPoint.type
  if ty = "linear" ∨ ty = "quadratic" ∨ ty = "cubic" then
    let segmentSteps : ℤ := ⌈steps * (endPoint.x - startPoint.x)⌉
    (List.range (segmentSteps + 1).toNat).filterMap fun (j : ℕ) =>
      if j = 0 ∧ isFirst = false then none
      else some (segPointAt startPoint endPoint ty ((j : ℚ) / (segmentSteps : ℚ)))
  else []

/-- The segment loop of getBezierPath over consecutive pairs. -/
def pathAux (steps : ℚ) : Bool → List ControlPoint → List Pt
  | isFirst, p0 :: p1 :: rest => segmentPath p0 p1 steps isFirst ++ pathAux steps false (p1 :: rest)
  | _, _ => []

/-- getBezierPath of src/lib/bezier.ts (steps is the density, default 100
at the call sites). -/
def getBezierPath (controlPoints : List ControlPoint) (steps : ℚ) : List Pt :=
  if controlPoints.length < 2 then [] else pathAux steps true controlPoints

/-- The segment-lookup loop of getTemperatureAtTime (lines 167-173): the
first consecutive pair (start, end) with start.x ≤ t ≤ end.x wins. -/
def findSegment : List ControlPoint → ℚ → Option (ControlPoint × ControlPoint)
  | p0 :: p1 :: rest, normalizedTime =>
      if p0.x ≤ normalizedTime ∧ normalizedTime ≤ p1.x then some (p0, p1)
      else findSegment (p1 :: rest) normalizedTime
  | _, _ => none

/-- The looked-up segment, falling back to startIndex = 0 (the first pair)
when no pair contains the query time. -/
def lookupSegment (controlPoints : List ControlPoint) (normalizedTime : ℚ) :
    ControlPoint × ControlPoint :=
  match findSegment controlPoints normalizedTime with
  | some pr => pr
  | none => (controlPoints.headD default, controlPoints.tail.headD default)

/-- Lines 166-233 of src/lib/bezier.ts: locate the segment, compute the
segment progress and dispatch on the start point's basis tag. -/
def valuePoint (controlPoints : List ControlPoint) (normalizedTime : ℚ) : Pt :=
  let sp := lookupSegment controlPoints normalizedTime
  let segmentDuration := sp.2.x - sp.1.x
  let segmentProgress := (normalizedTime - sp.1.x) / segmentDuration
  segPointAt sp.1 sp.2 (tagOr sp.1.type) segmentProgress

/-- getTemperatureAtTime of src/lib/bezier.ts. -/
def getTemperatureAtTime (controlPoints : List ControlPoint)
    (normalizedTime minTemp maxTemp : ℚ) : ℚ :=
  if controlPoints.length < 2 then minTemp
  else if normalizedTime ≤ 0 then
    minTemp + (controlPoints.headD default).y * (maxTemp - minTemp)
  else if 1 ≤ normalizedTime then
    minTemp + (controlPoints.getD (controlPoints.length - 1) default).y * (maxTemp - minTemp)
  else minTemp + (valuePoint controlPoints normalizedTime).y * (maxTemp - minTemp)

/-- getTemperatureAtTime with its one division made explicit: the
JavaScript code divides (normalizedTime - start.x) by (end.x - start.x)
unconditionally; a zero denominator yields NaN there, reported here as
none. -/
def getTemperatureAtTimeChecked (controlPoints : List ControlPoint)
    (normalizedTime minTemp maxTemp : ℚ) : Option ℚ :=
  if controlPoints.length < 2 then some minTemp
  else if normalizedTime ≤ 0 then
    some (minTemp + (controlPoints.headD default).y * (maxTemp - minTemp))
  else if 1 ≤ normalizedTime then
    some (minTemp + (controlPoints.getD (controlPoints.length - 1) default).y * (maxTemp - minTemp))
  else if (lookupSegment controlPoints normalizedTime).2.x -
      (lookupSegment controlPoints normalizedTime).1.x = 0 then none
  else some (minTemp + (valuePoint controlPoints normalizedTime).y * (maxTemp - minTemp))

/-- One segment of getBezierPath with its division made explicit: when
segmentSteps = 0 the (kept) j = 0 iteration computes t = 0 / 0 = NaN and
pushes a NaN point, reported here as none. -/
def segmentPathChecked (startPoint endPoint : ControlPoint) (steps : ℚ)
    (isFirst : Bool) : List (Option Pt) :=
  let ty := tagOr startPoint.type
  if ty = "linear" ∨ ty = "quadratic" ∨ ty = "cubic" then
    let segmentSteps : ℤ := ⌈steps * (endPoint.x - startPoint.x)⌉
    (List.range (segmentSteps + 1).toNat).filterMap fun (j : ℕ) =>
      if j = 0 ∧ isFirst = false then none
      else some (if segmentSteps = 0 then none
        else some (segPointAt startPoint endPoint ty ((j : ℚ) / (segmentSteps : ℚ))))
  else []

/-- The segment loop of getBezierPath, division-checked. -/
def pathAuxChecked (steps : ℚ) : Bool → List ControlPoint → List (Option Pt)
  | isFirst, p0 :: p1 :: rest =>
      segmentPathChecked p0 p1 steps isFirst ++ pathAuxChecked steps false (p1 :: rest)
  | _, _ => []

/-- getBezierPath, division-checked. -/
def getBezierPathChecked (controlPoints : List ControlPoint) (steps : ℚ) :
    List (Option Pt) :=
  if controlPoints.length < 2 then [] else pathAuxChecked steps true controlPoints

/-- The basis dispatch of getTemperatureAtTime in controllerService.ts
(lines 434-485): the tag is read from the end point; quadratic applies
only when the end point's handleX is truthy; an unrecognized tag falls
back to linear. -/
def csDispatch (startPoint endPoint : ControlPoint)
    (segmentProgress minTemp maxTemp : ℚ) : ℚ :=
  let segmentDuration := endPoint.x - startPoint.x
  let pointType := tagOr endPoint.type
  if pointType = "linear" then
    minTemp + (startPoint.y + (endPoint.y - startPoint.y) * segmentProgress) * (maxTemp - minTemp)
  else if pointType = "quadratic" ∧ truthyNum endPoint.handleX = true then
    let handleX := endPoint.handleX.getD 0
    let handleY := orNum endPoint.handleY endPoint.y
    minTemp + (quadraticBezierCS ⟨startPoint.x, startPoint.y⟩ ⟨handleX, handleY⟩
      ⟨endPoint.x, endPoint.y⟩ segmentProgress).y * (maxTemp - minTemp)
  else if pointType = "cubic" then
    let startHandleX := startPoint.handleX.getD (startPoint.x + segmentDuration / 3)
    let startHandleY := startPoint.handleY.getD (startPoint.y + (endPoint.y - startPoint.y) / 3)
    let endHandleX := endPoint.handleX.getD (endPoint.x - segmentDuration / 3)
    let endHandleY := endPoint.handleY.getD (endPoint.y - (endPoint.y - startPoint.y) / 3)
    minTemp + (cubicBezier ⟨startPoint.x, startPoint.y⟩ ⟨startHandleX, startHandleY⟩
      ⟨endHandleX, endHandleY⟩ ⟨endPoint.x, endPoint.y⟩ segmentProgress).y * (maxTemp - minTemp)
  else
    minTemp + (startPoint.y + (endPoint.y - startPoint.y) * segmentProgress) * (maxTemp - minTemp)

/-- getTemperatureAtTime of src/lib/controllerService.ts. -/
def getTemperatureAtTimeCS (controlPoints : List ControlPoint)
    (normalizedTime minTemp maxTemp : ℚ) : ℚ :=
  if controlPoints.length < 2 then minTemp
  else if normalizedTime ≤ 0 then
    minTemp + (controlPoints.headD default).y * (maxTemp - minTemp)
  else if 1 ≤ normalizedTime then
    minTemp + (controlPoints.getD (controlPoints.length - 1) default).y * (maxTemp - minTemp)
  else
    let sp := lookupSegment controlPoints normalizedTime
    csDispatch sp.1 sp.2 ((normalizedTime - sp.1.x) / (sp.2.x - sp.1.x)) minTemp maxTemp

/-- One segment of getBezierPath in controllerService.ts (lines 329-397):
a linear tag or a falsy end-point handleX pushes only the start point
(plus the end point on the last segment); quadratic and cubic tags sample
the curve; an unrecognized tag with truthy handleX emits nothing. -/
def segmentPathCS (startPoint endPoint : ControlPoint) (steps : ℚ)
    (isFirst isLast : Bool) : List Pt :=
  let pointType := tagOr endPoint.type
  let segmentSteps : ℤ := ⌈steps * (endPoint.x - startPoint.x)⌉
  if pointType = "linear" ∨ truthyNum endPoint.handleX = false then
    ⟨startPoint.x, startPoint.y⟩ :: (if isLast then [⟨endPoint.x, endPoint.y⟩] else [])
  else if pointType = "quadratic" then
    let handleX := endPoint.handleX.getD 0
    let handleY := orNum endPoint.handleY endPoint.y
    (List.range (segmentSteps + 1).toNat).filterMap fun (j : ℕ) =>
      if j = 0 ∧ isFirst = false then none
      else some (quadraticBezierCS ⟨startPoint.x, startPoint.y⟩ ⟨handleX, handleY⟩
        ⟨endPoint.x, endPoint.y⟩ ((j : ℚ) / (segmentSteps : ℚ)))
  else if pointType = "cubic" then
    let startHandleX := startPoint.handleX.getD (startPoint.x + (endPoint.x - startPoint.x) / 3)
    let startHandleY := startPoint.handleY.getD (startPoint.y + (endPoint.y - startPoint.y) / 3)
    let endHandleX := endPoint.handleX.getD (endPoint.x - (endPoint.x - startPoint.x) / 3)
    let endHandleY := endPoint.handleY.getD (endPoint.y - (endPoint.y - startPoint.y) / 3)
    (List.range (segmentSteps + 1).toNat).filterMap fun (j : ℕ) =>
      if j = 0 ∧ isFirst = false then none
      else some (cubicBezier ⟨startPoint.x, startPoint.y⟩ ⟨startHandleX, startHandleY⟩
        ⟨endHandleX, endHandleY⟩ ⟨endPoint.x, endPoint.y⟩ ((j : ℚ) / (segmentSteps : ℚ)))
  else []

/-- The segment loop of getBezierPath in controllerService.ts; the last
segment is the one with no pair after it. -/
def pathAuxCS (steps : ℚ) : Bool → List ControlPoint → List Pt
  | isFirst, p0 :: p1 :: rest =>
      segmentPathCS p0 p1 steps isFirst rest.isEmpty ++ pathAuxCS steps false (p1 :: rest)
  | _, _ => []

/-- getBezierPath of src/lib/controllerService.ts. -/
def getBezierPathCS (controlPoints : List ControlPoint) (steps : ℚ) : List Pt :=
  if controlPoints.length < 2 then [] else pathAuxCS steps true controlPoints

/-- The claimed sample count, 1 + the sum over consecutive segments of
ceil(density * (end.x - start.x)). -/
def stepSum (controlPoints : List ControlPoint) (steps : ℚ) : ℕ :=
  match controlPoints with
  | p0 :: p1 :: rest => (⌈steps * (p1.x - p0.x)⌉).toNat + stepSum (p1 :: rest) steps
  | _ => 0

/-- C8: fewer than two control points give the empty path and the flat
minTemp fallback. -/
theorem degenerate_input_fallback (controlPoints : List ControlPoint)
    (h : controlPoints.length < 2) (steps normalizedTime minTemp maxTemp : ℚ) :
    getBezierPath controlPoints steps = [] ∧
    getTemperatureAtTime controlPoints normalizedTime minTemp maxTemp = minTemp := by
  constructor
  · simp [getBezierPath, h]
  · simp [getTemperatureAtTime, h]

/-- Witness for degenerate_input_fallback at the empty sequence. -/
theorem degenerate_input_fallback_witness :
    getBezierPath [] 100 = [] ∧ getTemperatureAtTime [] (1/2) 0 100 = 0 :=
  degenerate_input_fallback [] (by decide) 100 (1/2) 0 100

/-- C9: the expanded-coefficient quadratic of controllerService.ts, the
Bernstein quadratic of bezier.ts, and the spec formula agree at every
input. -/
theorem quadratic_variants_agree (p0 h p1 : Pt) (t : ℚ) :
    quadraticBezierCS p0 h p1 t = quadraticBezier p0 h p1 t ∧
    quadraticBezier p0 h p1 t = quadraticSpec p0 h p1 t := by
  constructor <;>
    (ext <;> simp only [quadraticBezierCS, quadraticBezier, quadraticSpec] <;> ring)

/-- C6: getTemperatureAtTime is affine in the temperature range, with the
normalized value independent of minTemp and maxTemp. -/
theorem affine_in_temperature_range (controlPoints : List ControlPoint)
    (normalizedTime minTemp maxTemp : ℚ) :
    getTemperatureAtTime controlPoints normalizedTime minTemp maxTemp =
      minTemp + getTemperatureAtTime controlPoints normalizedTime 0 1 * (maxTemp - minTemp) := by
  unfold getTemperatureAtTime
  split_ifs <;> ring

/-- Evaluating the linear formula at t = 0 gives the start point. -/
theorem linearBezier_zero (p0 p1 : Pt) : linearBezier p0 p1 0 = p0 := by
  ext <;> simp [linearBezier]

/-- Evaluating the linear formula at t = 1 gives the end point. -/
theorem linearBezier_one (p0 p1 : Pt) : linearBezier p0 p1 1 = p1 := by
  ext <;> simp [linearBezier]

/-- Evaluating the Bernstein quadratic at t = 0 gives the start point. -/
theorem quadraticBezier_zero (p0 p1 p2 : Pt) : quadraticBezier p0 p1 p2 0 = p0 := by
  ext <;> simp [quadraticBezier]

/-- Evaluating the Bernstein quadratic at t = 1 gives the end point. -/
theorem quadraticBezier_one (p0 p1 p2 : Pt) : quadraticBezier p0 p1 p2 1 = p2 := by
  ext <;> simp [quadraticBezier]

/-- Evaluating the expanded cubic at t = 0 gives the start point. -/
theorem cubicBezier_zero (p0 p1 p2 p3 : Pt) : cubicBezier p0 p1 p2 p3 0 = p0 := by
  ext <;> simp [cubicBezier]

/-- Evaluating the expanded cubic at t = 1 gives the end point. -/
theorem cubicBezier_one (p0 p1 p2 p3 : Pt) : cubicBezier p0 p1 p2 p3 1 = p3 := by
  ext <;> simp [cubicBezier]

/-- Every basis branch of the bezier.ts dispatch starts at the segment
start point whatever the tag and handles are. -/
theorem segPointAt_zero (startPoint endPoint : ControlPoint) (ty : String) :
    segPointAt startPoint endPoint ty 0 = ⟨startPoint.x, startPoint.y⟩ := by
  unfold segPointAt
  split_ifs <;>
    simp [linearBezier_zero, quadraticBezier_zero, cubicBezier_zero]

/-- Every basis branch of the bezier.ts dispatch ends at the segment end
point whatever the tag and handles are. -/
theorem segPointAt_one (startPoint endPoint : ControlPoint) (ty : String) :
    segPointAt startPoint endPoint ty 1 = ⟨endPoint.x, endPoint.y⟩ := by
  unfold segPointAt
  split_ifs <;>
    simp [linearBezier_one, quadraticBezier_one, cubicBezier_one]

/-- A plain two-point linear ramp. -/
def cpLin2 : List ControlPoint :=
  [⟨0, 0, none, none, some "linear"⟩, ⟨1, 1, none, none, some "linear"⟩]

/-- A linear ramp whose first control point sits at x = 1/2 > 0. -/
def cpShift : List ControlPoint :=
  [⟨1/2, 0, none, none, some "linear"⟩, ⟨1, 1, none, none, some "linear"⟩]

/-- A segment carrying an unrecognized basis tag together with explicit
handle coordinates. -/
def cpWiggle : List ControlPoint :=
  [⟨0, 0, some (1/2), some 1, some "wiggle"⟩, ⟨1, 1, none, none, none⟩]

/-- The same points as cpWiggle with the tag replaced by "linear". -/
def cpWiggleLin : List ControlPoint :=
  [⟨0, 0, some (1/2), some 1, some "linear"⟩, ⟨1, 1, none, none, none⟩]

/-- A sequence whose middle segment has zero width at x = 1/2. -/
def cpZeroWidth : List ControlPoint :=
  [⟨1/2, 0, none, none, some "linear"⟩, ⟨1/2, 1, none, none, some "linear"⟩,
   ⟨1, 1, none, none, some "linear"⟩]

/-- A sequence whose first segment has zero width at x = 0. -/
def cpZeroWidthFirst : List ControlPoint :=
  [⟨0, 0, none, none, some "linear"⟩, ⟨0, 1, none, none, some "linear"⟩,
   ⟨1, 1, none, none, some "linear"⟩]

/-- A quadratic-tagged end point whose handleX is the falsy coordinate 0. -/
def cpQuadZero : List ControlPoint :=
  [⟨0, 0, none, none, none⟩, ⟨1, 1, some 0, some (3/4), some "quadratic"⟩]

/-- The same points as cpQuadZero with handleX nudged to 1/100. -/
def cpQuadEps : List ControlPoint :=
  [⟨0, 0, none, none, none⟩, ⟨1, 1, some (1/100), some (3/4), some "quadratic"⟩]

/-- C2 counterexample: with the first control point at x = 1/2, the query
time 1/4 ≤ points[0].x is not clamped to the first point's value; the code
extrapolates the first segment to -1/2. -/
theorem boundary_clamp_counterexample :
    getTemperatureAtTime cpShift (1/4) 0 1 = -(1/2) ∧
    getTemperatureAtTime cpShift (1/4) 0 1 ≠ 0 + (cpShift.headD default).y * (1 - 0) := by
  norm_num [getTemperatureAtTime, valuePoint, lookupSegment, findSegment, segPointAt,
    linearBezier, tagOr, cpShift]

/-- C2 amended: the clamp compares the query time against the constants 0
and 1, not against points[0].x and points[last].x; at or below 0 the first
point's value is returned, at or above 1 the last point's value. -/
theorem boundary_clamp_amended (controlPoints : List ControlPoint)
    (h2 : 2 ≤ controlPoints.length) (normalizedTime minTemp maxTemp : ℚ) :
    (normalizedTime ≤ 0 →
      getTemperatureAtTime controlPoints normalizedTime minTemp maxTemp =
        minTemp + (controlPoints.headD default).y * (maxTemp - minTemp)) ∧
    (1 ≤ normalizedTime →
      getTemperatureAtTime controlPoints normalizedTime minTemp maxTemp =
        minTemp + (controlPoints.getD (controlPoints.length - 1) default).y * (maxTemp - minTemp)) := by
  constructor <;> intro h
  · rw [getTemperatureAtTime, if_neg (by omega), if_pos h]
  · rw [getTemperatureAtTime, if_neg (by omega), if_neg (by linarith), if_pos h]

/-- Witness for boundary_clamp_amended on the two-point linear ramp. -/
theorem boundary_clamp_amended_witness :
    getTemperatureAtTime cpLin2 (-1) 0 100 = 0 + (cpLin2.headD default).y * (100 - 0) ∧
    getTemperatureAtTime cpLin2 2 0 100 = 0 + (cpLin2.getD (cpLin2.length - 1) default).y * (100 - 0) :=
  ⟨(boundary_clamp_amended cpLin2 (by decide) (-1) 0 100).1 (by norm_num),
   (boundary_clamp_amended cpLin2 (by decide) 2 0 100).2 (by norm_num)⟩

/-- C3 counterexample: an unrecognized tag "wiggle" with explicit handles
is interpolated as cubic (value 3/4 at t = 1/2), not as linear (value 1/2),
by the bezier.ts value sampler; and the bezier.ts tessellator emits nothing
at all for such a segment. -/
theorem unknown_tag_counterexample :
    getTemperatureAtTime cpWiggle (1/2) 0 1 ≠ getTemperatureAtTime cpWiggleLin (1/2) 0 1 ∧
    getBezierPath cpWiggle 100 = [] := by
  have hw : tagOr (some "wiggle") = "wiggle" := by simp [tagOr]
  have hl : tagOr (some "linear") = "linear" := by simp [tagOr]
  have hnr : ¬("wiggle" = "linear" ∨ "wiggle" = "quadratic" ∨ "wiggle" = "cubic") := by decide
  constructor
  · norm_num [getTemperatureAtTime, valuePoint, lookupSegment, findSegment, segPointAt,
      linearBezier, cubicBezier, hw, hl, cpWiggle, cpWiggleLin,
      (by decide : ¬("wiggle" = "linear")), (by decide : ¬("wiggle" = "quadratic"))]
  · simp [getBezierPath, pathAux, segmentPath, hw, hnr, cpWiggle]

/-- C3 amended: a missing or empty tag is treated as "linear"; but a
non-empty unrecognized tag is dispatched to the cubic branch by the
bezier.ts value sampler, makes the bezier.ts tessellator emit no points for
the segment, and only the controllerService.ts value sampler falls back to
the linear formula. -/
theorem unknown_tag_amended :
    (tagOr none = "linear" ∧ tagOr (some "") = "linear") ∧
    (∀ (s e : ControlPoint) (t : ℚ), tagOr s.type ≠ "linear" → tagOr s.type ≠ "quadratic" →
      segPointAt s e (tagOr s.type) t = segPointAt s e "cubic" t) ∧
    (∀ (s e : ControlPoint) (steps : ℚ) (b : Bool),
      tagOr s.type ≠ "linear" → tagOr s.type ≠ "quadratic" → tagOr s.type ≠ "cubic" →
      segmentPath s e steps b = []) ∧
    (∀ (s e : ControlPoint) (progress minT maxT : ℚ),
      tagOr e.type ≠ "linear" → tagOr e.type ≠ "quadratic" → tagOr e.type ≠ "cubic" →
      csDispatch s e progress minT maxT =
        minT + (s.y + (e.y - s.y) * progress) * (maxT - minT)) := by
  refine ⟨⟨by decide, by decide⟩, ?_, ?_, ?_⟩
  · intro s e t h1 h2
    simp [segPointAt, h1, h2]
  · intro s e steps b h1 h2 h3
    simp [segmentPath, h1, h2, h3]
  · intro s e progress minT maxT h1 h2 h3
    simp [csDispatch, h1, h2, h3]

/-- Witness for unknown_tag_amended at the tag "wiggle". -/
theorem unknown_tag_amended_witness :
    segPointAt ⟨0, 0, none, none, some "wiggle"⟩ ⟨1, 1, none, none, none⟩
        (tagOr (some "wiggle")) (1/2) =
      segPointAt ⟨0, 0, none, none, some "wiggle"⟩ ⟨1, 1, none, none, none⟩ "cubic" (1/2) ∧
    segmentPath ⟨0, 0, none, none, some "wiggle"⟩ ⟨1, 1, none, none, none⟩ 100 true = [] ∧
    csDispatch ⟨0, 0, none, none, none⟩ ⟨1, 1, none, none, some "wiggle"⟩ (1/2) 0 1 =
      0 + (0 + (1 - 0) * (1/2)) * (1 - 0) :=
  ⟨unknown_tag_amended.2.1 _ _ _ (by decide) (by decide),
   unknown_tag_amended.2.2.1 _ _ _ _ (by decide) (by decide) (by decide),
   unknown_tag_amended.2.2.2 _ _ _ _ _ (by decide) (by decide) (by decide)⟩

/-- C5 counterexample: for the controllerService.ts tessellator a linear
two-point curve at density 100 yields just the two endpoints, not the
claimed 1 + ceil(100 x 1) = 101 points; the sample count is not independent
of the basis there. -/
theorem sample_count_counterexample :
    getBezierPathCS cpLin2 100 = [⟨0, 0⟩, ⟨1, 1⟩] ∧
    (getBezierPathCS cpLin2 100).length ≠ 1 + stepSum cpLin2 100 := by
  have h : getBezierPathCS cpLin2 100 = [⟨0, 0⟩, ⟨1, 1⟩] := by
    simp [getBezierPathCS, pathAuxCS, segmentPathCS, tagOr, truthyNum, cpLin2]
  refine ⟨h, ?_⟩
  rw [h]
  have hs : stepSum cpLin2 100 = 100 := by
    norm_num [stepSum, cpLin2]
    decide
  rw [hs]
  decide

/-- C10: in controllerService.ts a quadratic-tagged segment is interpolated
quadratically only when the end point's handleX is truthy: with handleX
undefined or 0 the value sampler falls back to the linear formula and the
tessellator draws the straight segment; a handleY of 0 is replaced by the
end point's y; and nudging handleX from 0 to 1/100 switches the basis. -/
theorem cs_quadratic_handle_gating :
    (∀ (s e : ControlPoint) (progress minT maxT : ℚ),
      e.type = some "quadratic" → truthyNum e.handleX = false →
      csDispatch s e progress minT maxT =
        minT + (s.y + (e.y - s.y) * progress) * (maxT - minT)) ∧
    (∀ (s e : ControlPoint) (steps : ℚ),
      e.type = some "quadratic" → truthyNum e.handleX = false →
      getBezierPathCS [s, e] steps = [⟨s.x, s.y⟩, ⟨e.x, e.y⟩]) ∧
    (∀ (s e : ControlPoint) (progress minT maxT : ℚ),
      e.type = some "quadratic" → truthyNum e.handleX = true → e.handleY = some 0 →
      csDispatch s e progress minT maxT =
        csDispatch s ⟨e.x, e.y, e.handleX, some e.y, e.type⟩ progress minT maxT) ∧
    getTemperatureAtTimeCS cpQuadZero (1/2) 0 1 ≠ getTemperatureAtTimeCS cpQuadEps (1/2) 0 1 := by
  refine ⟨?_, ?_, ?_, ?_⟩
  · intro s e progress minT maxT h1 h2
    simp [csDispatch, tagOr, h1, h2]
  · intro s e steps h1 h2
    simp [getBezierPathCS, pathAuxCS, segmentPathCS, tagOr, h1, h2]
  · intro s e progress minT maxT h1 h2 h3
    simp [csDispatch, tagOr, h1, h2, h3, orNum, ite_self]
  · have hq : tagOr (some "quadratic") = "quadratic" := by simp [tagOr]
    have hnl : ("quadratic" : String) ≠ "linear" := by decide
    have hnc : ("quadratic" : String) ≠ "cubic" := by decide
    norm_num [getTemperatureAtTimeCS, lookupSegment, findSegment, csDispatch,
      truthyNum, orNum, quadraticBezierCS, cubicBezier, cpQuadZero, cpQuadEps,
      hq, hnl, hnc]

/-- Witness for cs_quadratic_handle_gating at concrete points. -/
theorem cs_quadratic_handle_gating_witness :
    csDispatch ⟨0, 0, none, none, none⟩ ⟨1, 1, some 0, some (3/4), some "quadratic"⟩ (1/2) 0 1 =
      0 + (0 + (1 - 0) * (1/2)) * (1 - 0) ∧
    getBezierPathCS [⟨0, 0, none, none, none⟩, ⟨1, 1, some 0, some (3/4), some "quadratic"⟩] 100 =
      [⟨0, 0⟩, ⟨1, 1⟩] ∧
    csDispatch ⟨0, 0, none, none, none⟩ ⟨1, 1, some (1/100), some 0, some "quadratic"⟩ (1/2) 0 1 =
      csDispatch ⟨0, 0, none, none, none⟩ ⟨1, 1, some (1/100), some 1, some "quadratic"⟩ (1/2) 0 1 :=
  ⟨cs_quadratic_handle_gating.1 _ _ _ _ _ (by decide) (by decide),
   cs_quadratic_handle_gating.2.1 _ _ _ (by decide) (by decide),
   cs_quadratic_handle_gating.2.2.1 _ _ _ _ _ rfl (by norm_num [truthyNum]) rfl⟩

/-- A segment pair returned by the lookup loop satisfies start.x < end.x
whenever the sequence is strictly sorted. -/
theorem findSegment_lt : ∀ (l : List ControlPoint) (normalizedTime : ℚ)
    (pr : ControlPoint × ControlPoint),
    l.Pairwise (fun a b => a.x < b.x) → findSegment l normalizedTime = some pr →
    pr.1.x < pr.2.x
  | p0 :: p1 :: rest, nt, pr, hs, hf => by
      simp only [findSegment] at hf
      split_ifs at hf with hcond
      · cases hf
        exact (List.pairwise_cons.mp hs).1 p1 (by simp)
      · exact findSegment_lt (p1 :: rest) nt pr (List.Pairwise.of_cons hs) hf
  | [], _, _, _, hf => by simp [findSegment] at hf
  | [p], _, _, _, hf => by simp [findSegment] at hf

/-- For a strictly sorted sequence of at least two points the looked-up
segment (found or defaulted to the first pair) has positive width. -/
theorem lookupSegment_lt (controlPoints : List ControlPoint) (normalizedTime : ℚ)
    (h2 : 2 ≤ controlPoints.length)
    (hs : controlPoints.Pairwise (fun a b => a.x < b.x)) :
    (lookupSegment controlPoints normalizedTime).1.x <
      (lookupSegment controlPoints normalizedTime).2.x := by
  rcases hfind : findSegment controlPoints normalizedTime with _ | pr
  · obtain ⟨p0, p1, rest, rfl⟩ : ∃ p0 p1 rest, controlPoints = p0 :: p1 :: rest := by
      match controlPoints, h2 with
      | p0 :: p1 :: rest, _ => exact ⟨p0, p1, rest, rfl⟩
    simp only [lookupSegment, hfind, List.headD_cons, List.tail_cons]
    exact (List.pairwise_cons.mp hs).1 p1 (by simp)
  · simp only [lookupSegment, hfind]
    exact findSegment_lt _ _ _ hs hfind

/-- A zero-width recognized first segment makes the checked tessellator
emit the single NaN marker. -/
theorem segmentPathChecked_zero_width (p0 p1 : ControlPoint) (steps : ℚ)
    (hty : tagOr p0.type = "linear") (hx : p1.x = p0.x) :
    segmentPathChecked p0 p1 steps true = [none] := by
  simp [segmentPathChecked, hty, hx, List.range_succ]

/-- C1 counterexample: the divisions are not guarded: a query landing in
the zero-width segment makes getTemperatureAtTime compute 0/0 (a NaN
result, modelled as none), and a zero-width first segment makes
getBezierPath emit a 0/0 point. -/
theorem zero_width_counterexample :
    getTemperatureAtTimeChecked cpZeroWidth (1/2) 0 1 = none ∧
    (getBezierPathChecked cpZeroWidthFirst 100).head? = some none := by
  constructor
  · norm_num [getTemperatureAtTimeChecked, lookupSegment, findSegment, cpZeroWidth]
  · have h1 := segmentPathChecked_zero_width ⟨0, 0, none, none, some "linear"⟩
      ⟨0, 1, none, none, some "linear"⟩ 100 (by simp [tagOr]) rfl
    simp only [getBezierPathChecked, cpZeroWidthFirst, pathAuxChecked]
    norm_num [h1]

/-- Every entry of a checked segment whose step count is nonzero is a real
point. -/
theorem segmentPathChecked_isSome (p0 p1 : ControlPoint) (steps : ℚ) (b : Bool)
    (hW : ⌈steps * (p1.x - p0.x)⌉ ≠ 0) :
    ∀ o ∈ segmentPathChecked p0 p1 steps b, o.isSome = true := by
  intro o ho
  simp only [segmentPathChecked] at ho
  split_ifs at ho with hty
  · rw [List.mem_filterMap] at ho
    obtain ⟨j, hj, hfj⟩ := ho
    by_cases hskip : j = 0 ∧ b = false
    · rw [if_pos hskip] at hfj
      exact absurd hfj (by simp)
    · rw [if_neg hskip] at hfj
      cases hfj
      rfl
  · simp at ho

/-- The checked segment loop produces only real points on a strictly
sorted sequence with positive density. -/
theorem pathAuxChecked_isSome : ∀ (l : List ControlPoint) (steps : ℚ) (b : Bool),
    l.Pairwise (fun a b => a.x < b.x) → 0 < steps →
    ∀ o ∈ pathAuxChecked steps b l, o.isSome = true
  | p0 :: p1 :: rest, steps, b, hp, hst, o, ho => by
      simp only [pathAuxChecked] at ho
      rw [List.mem_append] at ho
      rcases ho with ho | ho
      · have hw : 0 < p1.x - p0.x :=
          sub_pos.mpr ((List.pairwise_cons.mp hp).1 p1 (by simp))
        have hc : (0 : ℤ) < ⌈steps * (p1.x - p0.x)⌉ := Int.ceil_pos.mpr (mul_pos hst hw)
        exact segmentPathChecked_isSome p0 p1 steps b (by omega) o ho
      · exact pathAuxChecked_isSome (p1 :: rest) steps false (List.Pairwise.of_cons hp) hst o ho
  | [], _, _, _, _, o, ho => by simp [pathAuxChecked] at ho
  | [p], _, _, _, _, o, ho => by simp [pathAuxChecked] at ho

/-- C1 amended: the code never guards the divisions; NaN is only avoided
when no zero-width segment is evaluated.  On a strictly sorted sequence
the value sampler performs no division by zero, and with positive density
neither does the tessellator. -/
theorem zero_width_guard_amended (controlPoints : List ControlPoint)
    (steps normalizedTime minTemp maxTemp : ℚ)
    (hs : controlPoints.Pairwise (fun a b => a.x < b.x)) (hsteps : 0 < steps) :
    (getTemperatureAtTimeChecked controlPoints normalizedTime minTemp maxTemp).isSome = true ∧
    ∀ o ∈ getBezierPathChecked controlPoints steps, o.isSome = true := by
  constructor
  · unfold getTemperatureAtTimeChecked
    split_ifs with hlen hle hge hzero
    · rfl
    · rfl
    · rfl
    · have hlt := lookupSegment_lt controlPoints normalizedTime (by omega) hs
      exact absurd hzero (sub_ne_zero.mpr (ne_of_gt hlt))
    · rfl
  · intro o ho
    unfold getBezierPathChecked at ho
    split_ifs at ho with hlen
    · simp at ho
    · exact pathAuxChecked_isSome controlPoints steps true hs hsteps o ho

/-- Witness for zero_width_guard_amended on the two-point linear ramp. -/
theorem zero_width_guard_amended_witness :
    (getTemperatureAtTimeChecked cpLin2 (1/2) 0 100).isSome = true :=
  (zero_width_guard_amended cpLin2 1 (1/2) 0 100 (by decide) (by norm_num)).1

/-- In a strictly sorted sequence the x coordinates grow with the index. -/
theorem pairwise_getD_lt (l : List ControlPoint)
    (hp : l.Pairwise (fun a b => a.x < b.x)) (i j : ℕ) (hij : i < j)
    (hj : j < l.length) :
    (l.getD i default).x < (l.getD j default).x := by
  rw [List.getD_eq_getElem l default (lt_trans hij hj), List.getD_eq_getElem l default hj]
  exact List.pairwise_iff_getElem.mp hp i j (lt_trans hij hj) hj hij

/-- On a strictly sorted sequence, querying the x coordinate of the k-th
control point (k at least 1) makes the lookup loop stop at the segment
from point k-1 to point k. -/
theorem findSegment_at_vertex : ∀ (l : List ControlPoint) (k : ℕ),
    l.Pairwise (fun a b => a.x < b.x) → 1 ≤ k → k < l.length →
    findSegment l ((l.getD k default).x) =
      some (l.getD (k - 1) default, l.getD k default)
  | p0 :: p1 :: rest, 1, hp, _, _ => by
      have h01 : p0.x < p1.x := (List.pairwise_cons.mp hp).1 p1 (by simp)
      simp only [List.getD_cons_succ, List.getD_cons_zero, findSegment, Nat.sub_self]
      rw [if_pos ⟨le_of_lt h01, le_refl _⟩]
  | p0 :: p1 :: rest, k + 2, hp, _, hlen => by
      have hk' : k < rest.length := by
        simp only [List.length_cons] at hlen
        omega
      have hmem : rest.getD k default ∈ rest := by
        rw [List.getD_eq_getElem rest default hk']
        exact List.getElem_mem hk'
      have hlt : p1.x < (rest.getD k default).x :=
        (List.pairwise_cons.mp (List.Pairwise.of_cons hp)).1 _ hmem
      have hrec := findSegment_at_vertex (p1 :: rest) (k + 1)
        (List.Pairwise.of_cons hp) (by omega) (by simp only [List.length_cons]; omega)
      have h0le : p0.x ≤ ((p0 :: p1 :: rest).getD (k + 2) default).x := by
        simp only [List.getD_cons_succ]
        have h01 : p0.x < p1.x := (List.pairwise_cons.mp hp).1 p1 (by simp)
        exact le_of_lt (lt_trans h01 hlt)
      simp only [List.getD_cons_succ, Nat.add_sub_cancel] at hrec ⊢
      simp only [findSegment]
      rw [if_neg fun hc => absurd hc.2 (not_le.mpr hlt)]
      exact hrec
  | [], _, _, _, hlen => by simp at hlen
  | [p], k, _, hk, hlen => by
      simp only [List.length_cons, List.length_nil] at hlen
      omega
  | p0 :: p1 :: rest, 0, _, hk, _ => by omega

/-- C4: at every control point the value sampler returns exactly that
point's rescaled y, whether the point is hit as a segment start or end and
for any basis tags and handles. -/
theorem continuity_at_control_points (controlPoints : List ControlPoint) (k : ℕ)
    (hk : k < controlPoints.length) (h2 : 2 ≤ controlPoints.length)
    (hsort : controlPoints.Pairwise (fun a b => a.x < b.x))
    (hrange : ∀ p ∈ controlPoints, 0 ≤ p.x ∧ p.x ≤ 1)
    (minTemp maxTemp : ℚ) (hmm : minTemp < maxTemp) :
    getTemperatureAtTime controlPoints ((controlPoints.getD k default).x) minTemp maxTemp =
      minTemp + (controlPoints.getD k default).y * (maxTemp - minTemp) := by
  obtain ⟨p0, p1, rest, rfl⟩ : ∃ p0 p1 rest, controlPoints = p0 :: p1 :: rest := by
    match controlPoints, h2 with
    | p0 :: p1 :: rest, _ => exact ⟨p0, p1, rest, rfl⟩
  have hlen2 : ¬((p0 :: p1 :: rest).length < 2) := by
    simp only [List.length_cons]
    omega
  by_cases hle : ((p0 :: p1 :: rest).getD k default).x ≤ 0
  · have hk0 : k = 0 := by
      by_contra hne
      obtain ⟨k', rfl⟩ : ∃ k', k = k' + 1 := ⟨k - 1, by omega⟩
      have hk'' : k' < (p1 :: rest).length := by
        simp only [List.length_cons] at hk ⊢
        omega
      have hmem : (p1 :: rest).getD k' default ∈ (p1 :: rest) := by
        rw [List.getD_eq_getElem _ default hk'']
        exact List.getElem_mem hk''
      have h0lt : p0.x < ((p1 :: rest).getD k' default).x :=
        (List.pairwise_cons.mp hsort).1 _ hmem
      have h0pos : 0 ≤ p0.x := (hrange p0 (by simp)).1
      simp only [List.getD_cons_succ] at hle
      linarith
    subst hk0
    simp only [List.getD_cons_zero] at hle ⊢
    rw [getTemperatureAtTime, if_neg hlen2, if_pos hle]
    simp
  · by_cases hge : 1 ≤ ((p0 :: p1 :: rest).getD k default).x
    · have hklast : k = (p0 :: p1 :: rest).length - 1 := by
        by_contra hne
        have hkl : k < (p0 :: p1 :: rest).length - 1 := by omega
        have hlast : (p0 :: p1 :: rest).length - 1 < (p0 :: p1 :: rest).length := by
          simp only [List.length_cons]
          omega
        have hlt := pairwise_getD_lt (p0 :: p1 :: rest) hsort k
          ((p0 :: p1 :: rest).length - 1) hkl hlast
        have hmem : (p0 :: p1 :: rest).getD ((p0 :: p1 :: rest).length - 1) default ∈
            (p0 :: p1 :: rest) := by
          rw [List.getD_eq_getElem _ default hlast]
          exact List.getElem_mem hlast
        have hlast_le := (hrange _ hmem).2
        linarith
      rw [getTemperatureAtTime, if_neg hlen2, if_neg hle, if_pos hge, hklast]
    · rw [getTemperatureAtTime, if_neg hlen2, if_neg hle, if_neg hge]
      cases k with
      | zero =>
        simp only [List.getD_cons_zero]
        have hfind : findSegment (p0 :: p1 :: rest) p0.x = some (p0, p1) := by
          simp only [findSegment]
          rw [if_pos ⟨le_refl _, le_of_lt ((List.pairwise_cons.mp hsort).1 p1 (by simp))⟩]
        unfold valuePoint lookupSegment
        simp only [hfind]
        rw [sub_self, zero_div, segPointAt_zero]
      | succ k' =>
        have hfind := findSegment_at_vertex (p0 :: p1 :: rest) (k' + 1) hsort
          (by omega) hk
        simp only [Nat.add_sub_cancel] at hfind
        have hwidth : ((p0 :: p1 :: rest).getD k' default).x <
            ((p0 :: p1 :: rest).getD (k' + 1) default).x :=
          pairwise_getD_lt _ hsort k' (k' + 1) (by omega) hk
        unfold valuePoint lookupSegment
        simp only [hfind]
        rw [div_self (sub_ne_zero.mpr (ne_of_gt hwidth)), segPointAt_one]

/-- Witness for continuity_at_control_points at the second point of the
linear ramp. -/
theorem continuity_at_control_points_witness :
    getTemperatureAtTime cpLin2 ((cpLin2.getD 1 default).x) 0 100 =
      0 + (cpLin2.getD 1 default).y * (100 - 0) :=
  continuity_at_control_points cpLin2 1 (by decide) (by decide)
    (by norm_num [cpLin2, List.pairwise_cons]) (by norm_num [cpLin2]) 0 100 (by norm_num)

/-- Dropping the skip guard: over indices that are never 0 the sampling
loop keeps every point. -/
theorem filterMap_skip_map (p0 p1 : ControlPoint) (ty : String) (sQ : ℚ) (b : Bool) :
    ∀ (l : List ℕ), (∀ j ∈ l, j ≠ 0) →
    (l.filterMap fun (j : ℕ) =>
        if j = 0 ∧ b = false then none
        else some (segPointAt p0 p1 ty ((j : ℚ) / sQ))) =
      l.map fun (j : ℕ) => segPointAt p0 p1 ty ((j : ℚ) / sQ)
  | [], _ => rfl
  | a :: t, hl => by
      have ha : ¬(a = 0 ∧ b = false) := fun hc => hl a (by simp) hc.1
      rw [List.filterMap_cons_some (by rw [if_neg ha]), List.map_cons,
        filterMap_skip_map p0 p1 ty sQ b t (fun j hj => hl j (by simp [hj]))]

/-- Normal form of one bezier.ts path segment with a recognized basis and
a nonnegative step count: the t = 0 point (kept only on the first
segment) followed by the points at t = (k+1)/segmentSteps. -/
theorem segmentPath_eq_map (p0 p1 : ControlPoint) (steps : ℚ) (b : Bool)
    (hty : tagOr p0.type = "linear" ∨ tagOr p0.type = "quadratic" ∨ tagOr p0.type = "cubic")
    (hpos : 0 ≤ ⌈steps * (p1.x - p0.x)⌉) :
    segmentPath p0 p1 steps b =
      (if b = true then [segPointAt p0 p1 (tagOr p0.type) 0] else []) ++
        (List.range (⌈steps * (p1.x - p0.x)⌉).toNat).map
          (fun k => segPointAt p0 p1 (tagOr p0.type)
            (((k + 1 : ℕ) : ℚ) / ((⌈steps * (p1.x - p0.x)⌉ : ℤ) : ℚ))) := by
  have hN : (⌈steps * (p1.x - p0.x)⌉ + 1).toNat = ⌈steps * (p1.x - p0.x)⌉.toNat + 1 := by
    omega
  simp only [segmentPath]
  rw [if_pos hty, hN, List.range_succ_eq_map, List.filterMap_cons]
  rw [filterMap_skip_map p0 p1 (tagOr p0.type) ((⌈steps * (p1.x - p0.x)⌉ : ℤ) : ℚ) b
      ((List.range ⌈steps * (p1.x - p0.x)⌉.toNat).map Nat.succ)
      (by
        intro j hj
        simp only [List.mem_map] at hj
        obtain ⟨m, _, rfl⟩ := hj
        exact Nat.succ_ne_zero m)]
  rw [List.map_map]
  cases b with
  | false =>
      rw [if_pos (⟨rfl, rfl⟩ : ((0 : ℕ) = 0 ∧ false = false))]
      simp [Nat.succ_eq_add_one, Function.comp]
  | true =>
      rw [if_neg (by simp : ¬((0 : ℕ) = 0 ∧ true = false))]
      simp [Nat.succ_eq_add_one, Function.comp]

/-- Sample count of one bezier.ts path segment: segmentSteps points, plus
the t = 0 point on the first segment. -/
theorem segmentPath_length (p0 p1 : ControlPoint) (steps : ℚ) (b : Bool)
    (hty : tagOr p0.type = "linear" ∨ tagOr p0.type = "quadratic" ∨ tagOr p0.type = "cubic")
    (hpos : 0 ≤ ⌈steps * (p1.x - p0.x)⌉) :
    (segmentPath p0 p1 steps b).length =
      (if b = true then 1 else 0) + (⌈steps * (p1.x - p0.x)⌉).toNat := by
  rw [segmentPath_eq_map p0 p1 steps b hty hpos]
  cases b <;> simp <;> omega

/-- The first emitted point of a first segment is the start control
point. -/
theorem segmentPath_head (p0 p1 : ControlPoint) (steps : ℚ)
    (hty : tagOr p0.type = "linear" ∨ tagOr p0.type = "quadratic" ∨ tagOr p0.type = "cubic")
    (hpos : 0 ≤ ⌈steps * (p1.x - p0.x)⌉) :
    (segmentPath p0 p1 steps true).head? = some ⟨p0.x, p0.y⟩ := by
  rw [segmentPath_eq_map p0 p1 steps true hty hpos]
  simp [segPointAt_zero]

/-- The last emitted point of a segment with at least one step is the end
control point. -/
theorem segmentPath_getLast (p0 p1 : ControlPoint) (steps : ℚ) (b : Bool)
    (hty : tagOr p0.type = "linear" ∨ tagOr p0.type = "quadratic" ∨ tagOr p0.type = "cubic")
    (h1 : 1 ≤ ⌈steps * (p1.x - p0.x)⌉) :
    (segmentPath p0 p1 steps b).getLast? = some ⟨p1.x, p1.y⟩ := by
  have hpos : 0 ≤ ⌈steps * (p1.x - p0.x)⌉ := by omega
  obtain ⟨m, hm⟩ : ∃ m, (⌈steps * (p1.x - p0.x)⌉).toNat = m + 1 := by
    refine ⟨(⌈steps * (p1.x - p0.x)⌉).toNat - 1, ?_⟩
    omega
  have hcast : ((m + 1 : ℕ) : ℚ) = ((⌈steps * (p1.x - p0.x)⌉ : ℤ) : ℚ) := by
    rw [show ((m + 1 : ℕ) : ℚ) = (((m + 1 : ℕ) : ℤ) : ℚ) by push_cast; ring, ← hm,
      Int.toNat_of_nonneg hpos]
  have hne : ((⌈steps * (p1.x - p0.x)⌉ : ℤ) : ℚ) ≠ 0 := by
    rw [Int.cast_ne_zero]
    omega
  rw [segmentPath_eq_map p0 p1 steps b hty hpos, hm, List.range_succ, List.map_append,
    List.map_cons, List.map_nil, ← List.append_assoc, List.getLast?_concat,
    hcast, div_self hne, segPointAt_one]

/-- A first segment with at least one step makes the path loop emit at
least one point. -/
theorem pathAux_ne_nil (p0 p1 : ControlPoint) (rest : List ControlPoint)
    (steps : ℚ) (b : Bool)
    (hty : tagOr p0.type = "linear" ∨ tagOr p0.type = "quadratic" ∨ tagOr p0.type = "cubic")
    (h1 : 1 ≤ ⌈steps * (p1.x - p0.x)⌉) :
    pathAux steps b (p0 :: p1 :: rest) ≠ [] := by
  simp only [pathAux]
  intro h
  obtain ⟨hseg, _⟩ := List.append_eq_nil.mp h
  have hlen := segmentPath_length p0 p1 steps b hty (by omega)
  rw [hseg] at hlen
  simp at hlen
  omega

/-- The last point of the path loop is the last control point whenever
every segment has a recognized basis and at least one step. -/
theorem pathAux_getLast : ∀ (l : List ControlPoint) (steps : ℚ) (b : Bool),
    2 ≤ l.length →
    (∀ p ∈ l.dropLast,
      tagOr p.type = "linear" ∨ tagOr p.type = "quadratic" ∨ tagOr p.type = "cubic") →
    l.Chain' (fun a c => 1 ≤ ⌈steps * (c.x - a.x)⌉) →
    (pathAux steps b l).getLast? =
      some ⟨(l.getD (l.length - 1) default).x, (l.getD (l.length - 1) default).y⟩
  | [p0, p1], steps, b, _, htags, hchain => by
      have h1 : 1 ≤ ⌈steps * (p1.x - p0.x)⌉ := (List.chain'_cons.mp hchain).1
      simp only [pathAux, List.append_nil]
      rw [segmentPath_getLast p0 p1 steps b (htags p0 (by simp)) h1]
      simp
  | p0 :: p1 :: p2 :: rest, steps, b, _, htags, hchain => by
      have h1 : 1 ≤ ⌈steps * (p1.x - p0.x)⌉ := (List.chain'_cons.mp hchain).1
      have hne : pathAux steps false (p1 :: p2 :: rest) ≠ [] := by
        have h2 : 1 ≤ ⌈steps * (p2.x - p1.x)⌉ :=
          (List.chain'_cons.mp (List.chain'_cons.mp hchain).2).1
        exact pathAux_ne_nil p1 p2 rest steps false
          (htags p1 (by simp [List.dropLast_cons₂])) h2
      rw [show pathAux steps b (p0 :: p1 :: p2 :: rest) =
          segmentPath p0 p1 steps b ++ pathAux steps false (p1 :: p2 :: rest) from rfl]
      rw [List.getLast?_append_of_ne_nil _ hne]
      rw [pathAux_getLast (p1 :: p2 :: rest) steps false (by simp)
        (fun p hp => htags p (by
          rw [List.dropLast_cons₂]
          exact List.mem_cons_of_mem p0 hp)) (List.Chain'.tail hchain)]
      have hidx : (p0 :: p1 :: p2 :: rest).getD ((p0 :: p1 :: p2 :: rest).length - 1) default
          = (p1 :: p2 :: rest).getD ((p1 :: p2 :: rest).length - 1) default := by
        simp only [List.length_cons, Nat.add_sub_cancel]
        rw [show rest.length + 1 + 1 = (rest.length + 1) + 1 from rfl, List.getD_cons_succ]
      rw [hidx]
  | [], _, _, h2, _, _ => by simp at h2
  | [p], _, _, h2, _, _ => by simp at h2

/-- C7: with every segment basis recognized and at least one step per
segment, the tessellation starts at the first control point and ends at
the last. -/
theorem tessellation_endpoints (controlPoints : List ControlPoint) (steps : ℚ)
    (h2 : 2 ≤ controlPoints.length)
    (hsort : controlPoints.Pairwise (fun a b => a.x < b.x))
    (htags : ∀ p ∈ controlPoints.dropLast,
      tagOr p.type = "linear" ∨ tagOr p.type = "quadratic" ∨ tagOr p.type = "cubic")
    (hsteps : controlPoints.Chain' (fun a c => 1 ≤ ⌈steps * (c.x - a.x)⌉)) :
    (getBezierPath controlPoints steps).head? =
      some ⟨(controlPoints.headD default).x, (controlPoints.headD default).y⟩ ∧
    (getBezierPath controlPoints steps).getLast? =
      some ⟨(controlPoints.getD (controlPoints.length - 1) default).x,
            (controlPoints.getD (controlPoints.length - 1) default).y⟩ := by
  obtain ⟨p0, p1, rest, rfl⟩ : ∃ p0 p1 rest, controlPoints = p0 :: p1 :: rest := by
    match controlPoints, h2 with
    | p0 :: p1 :: rest, _ => exact ⟨p0, p1, rest, rfl⟩
  have hlen2 : ¬((p0 :: p1 :: rest).length < 2) := by
    simp only [List.length_cons]
    omega
  have h1 : 1 ≤ ⌈steps * (p1.x - p0.x)⌉ := (List.chain'_cons.mp hsteps).1
  constructor
  · rw [getBezierPath, if_neg hlen2]
    rw [show pathAux steps true (p0 :: p1 :: rest) =
        segmentPath p0 p1 steps true ++ pathAux steps false (p1 :: rest) from rfl]
    rw [segmentPath_eq_map p0 p1 steps true (htags p0 (by simp [List.dropLast_cons₂]))
      (by omega)]
    simp [segPointAt_zero]
  · rw [getBezierPath, if_neg hlen2]
    exact pathAux_getLast (p0 :: p1 :: rest) steps true (by simp) htags hsteps

/-- Witness for tessellation_endpoints on the two-point linear ramp. -/
theorem tessellation_endpoints_witness :
    (getBezierPath cpLin2 1).head? =
      some ⟨(cpLin2.headD default).x, (cpLin2.headD default).y⟩ ∧
    (getBezierPath cpLin2 1).getLast? =
      some ⟨(cpLin2.getD (cpLin2.length - 1) default).x,
            (cpLin2.getD (cpLin2.length - 1) default).y⟩ :=
  tessellation_endpoints cpLin2 1 (by decide)
    (by norm_num [cpLin2, List.pairwise_cons]) (by decide)
    (by norm_num [cpLin2, List.chain'_cons])

/-- Length of the path loop after the first segment: the sum of the step
counts. -/
theorem pathAux_false_length : ∀ (l : List ControlPoint) (steps : ℚ),
    l.Pairwise (fun a b => a.x < b.x) → 0 ≤ steps →
    (∀ p ∈ l.dropLast,
      tagOr p.type = "linear" ∨ tagOr p.type = "quadratic" ∨ tagOr p.type = "cubic") →
    (pathAux steps false l).length = stepSum l steps
  | [], _, _, _, _ => rfl
  | [p], _, _, _, _ => rfl
  | p0 :: p1 :: rest, steps, hsort, hsteps, htags => by
      have hpos : 0 ≤ ⌈steps * (p1.x - p0.x)⌉ :=
        Int.ceil_nonneg (mul_nonneg hsteps
          (le_of_lt (sub_pos.mpr ((List.pairwise_cons.mp hsort).1 p1 (by simp)))))
      rw [show pathAux steps false (p0 :: p1 :: rest) =
          segmentPath p0 p1 steps false ++ pathAux steps false (p1 :: rest) from rfl]
      rw [List.length_append,
        segmentPath_length p0 p1 steps false (htags p0 (by simp [List.dropLast_cons₂])) hpos,
        pathAux_false_length (p1 :: rest) steps (List.Pairwise.of_cons hsort) hsteps
          (fun p hp => htags p (by
            rw [List.dropLast_cons₂]
            exact List.mem_cons_of_mem p0 hp))]
      rw [show stepSum (p0 :: p1 :: rest) steps =
          (⌈steps * (p1.x - p0.x)⌉).toNat + stepSum (p1 :: rest) steps from rfl]
      simp

/-- C5 amended: for the bezier.ts tessellator with nonnegative density,
strictly increasing x and recognized bases, the output holds exactly
1 + the sum over segments of ceil(density * (end.x - start.x)) points. -/
theorem sample_count_amended (controlPoints : List ControlPoint) (steps : ℚ)
    (h2 : 2 ≤ controlPoints.length)
    (hsort : controlPoints.Pairwise (fun a b => a.x < b.x))
    (hsteps : 0 ≤ steps)
    (htags : ∀ p ∈ controlPoints.dropLast,
      tagOr p.type = "linear" ∨ tagOr p.type = "quadratic" ∨ tagOr p.type = "cubic") :
    (getBezierPath controlPoints steps).length = 1 + stepSum controlPoints steps := by
  obtain ⟨p0, p1, rest, rfl⟩ : ∃ p0 p1 rest, controlPoints = p0 :: p1 :: rest := by
    match controlPoints, h2 with
    | p0 :: p1 :: rest, _ => exact ⟨p0, p1, rest, rfl⟩
  have hlen2 : ¬((p0 :: p1 :: rest).length < 2) := by
    simp only [List.length_cons]
    omega
  have hpos : 0 ≤ ⌈steps * (p1.x - p0.x)⌉ :=
    Int.ceil_nonneg (mul_nonneg hsteps
      (le_of_lt (sub_pos.mpr ((List.pairwise_cons.mp hsort).1 p1 (by simp)))))
  rw [getBezierPath, if_neg hlen2]
  rw [show pathAux steps true (p0 :: p1 :: rest) =
      segmentPath p0 p1 steps true ++ pathAux steps false (p1 :: rest) from rfl]
  rw [List.length_append,
    segmentPath_length p0 p1 steps true (htags p0 (by simp [List.dropLast_cons₂])) hpos,
    pathAux_false_length (p1 :: rest) steps (List.Pairwise.of_cons hsort) hsteps
      (fun p hp => htags p (by
        rw [List.dropLast_cons₂]
        exact List.mem_cons_of_mem p0 hp))]
  rw [show stepSum (p0 :: p1 :: rest) steps =
      (⌈steps * (p1.x - p0.x)⌉).toNat + stepSum (p1 :: rest) steps from rfl]
  simp
  omega

/-- Witness for sample_count_amended on the two-point linear ramp at
density 4. -/
theorem sample_count_amended_witness :
    (getBezierPath cpLin2 4).length = 1 + stepSum cpLin2 4 :=
  sample_count_amended cpLin2 4 (by decide)
    (by norm_num [cpLin2, List.pairwise_cons]) (by norm_num) (by decide)
